import Mathlib

/-!
A verification development for the iterative root-cause analysis engine of the
traceback CLI.  The Python sources under `cli/tracebackapp/tools/` (and the
`RootCauseAnalyzer` in `cli/tracebackapp/tools/analyzer.py`) are shallowly
embedded below: pure fragments become Lean functions, the stateful analysis
loop becomes an explicit step function over a state record, the filesystem and
the external LLM service are passed in as explicit data, and Python exceptions
are modelled with `Except` / distinguished outcome values.
-/

namespace Traceback

/-! ## Rate limiting (`claude_client.py`, `RateLimitState`) -/

/-- Quota tracking state, translated from `RateLimitState` in
`cli/tracebackapp/tools/claude_client.py`.  Timestamps (seconds since the
epoch) are modelled as rationals; the Python float literal `0.2` is modelled
as the exact rational `1/5`. -/
structure RateLimitState where
  last_request_time : ℚ := 0
  requests_remaining : ℤ := 50
  tokens_remaining : ℤ := 20000
  reset_time : Option ℚ := none
deriving DecidableEq, Repr

/-- Python truthiness of the `reset_time` field (`None` and `0.0` are falsy). -/
def resetTruthy : Option ℚ → Bool
  | none => false
  | some t => t != 0

/-- Translation of `RateLimitState.should_rate_limit` from
`cli/tracebackapp/tools/claude_client.py` lines 59-75.  When the quota branch
is taken (`requests_remaining <= 0` and `reset_time` truthy and
`current_time < reset_time`), the code executes
`logger.warning(f"... {datetime.fromtimestamp(self.reset_time).isoformat()}")`
before its `return True`; the name `datetime` is never bound in the enclosing
scopes (it is imported only as a function-local inside `update_from_headers`),
so this branch raises `NameError`, modelled as `Except.error`.  Otherwise the
minimum-spacing check runs and a boolean is returned. -/
def shouldRateLimit (s : RateLimitState) (now : ℚ) : Except String Bool :=
  if s.requests_remaining ≤ 0 ∧ resetTruthy s.reset_time = true ∧ now < s.reset_time.getD 0 then
    Except.error "NameError: name 'datetime' is not defined"
  else if now - s.last_request_time < 1/5 then
    Except.ok true
  else
    Except.ok false

/-! ## String and list helpers mirroring the Python primitives used below -/

/-- Python `list.startswith`-style check on character lists. -/
def startsWithChars : List Char → List Char → Bool
  | [], _ => true
  | _ :: _, [] => false
  | a :: as, b :: bs => a == b && startsWithChars as bs

/-- Substring containment on character lists (Python `needle in hay`). -/
def hasSubChars (needle : List Char) : List Char → Bool
  | [] => startsWithChars needle []
  | c :: t => startsWithChars needle (c :: t) || hasSubChars needle t

/-- Python `pat in hay` on strings. -/
def strContains (hay pat : String) : Bool := hasSubChars pat.toList hay.toList

/-- ASCII lower-casing of one character (the workspace file names and search
patterns handled by the tool are ASCII; Python `str.lower`). -/
def lowerChar (c : Char) : Char :=
  if 'A' ≤ c ∧ c ≤ 'Z' then Char.ofNat (c.toNat + 32) else c

/-- Case-insensitive substring containment: `pat.lower() in hay.lower()`. -/
def strContainsCI (hay pat : String) : Bool :=
  hasSubChars (pat.toList.map lowerChar) (hay.toList.map lowerChar)

/-- Python `s.startswith(pre)`. -/
def pyStartsWith (s pre : String) : Bool := startsWithChars pre.toList s.toList

/-- Python `s.endswith(suf)`. -/
def pyEndsWith (s suf : String) : Bool :=
  startsWithChars suf.toList.reverse s.toList.reverse

/-- Splitting on every non-overlapping occurrence of a non-empty separator,
left to right (Python `s.split(sep)`); the fuel starts at the input length and
dominates the number of scan steps. -/
def splitOnListAux (sep : List Char) : Nat → List Char → List Char → List (List Char)
  | _, [], acc => [acc.reverse]
  | 0, l, acc => [acc.reverse ++ l]
  | fuel + 1, c :: t, acc =>
    if startsWithChars sep (c :: t) then
      acc.reverse :: splitOnListAux sep fuel (List.drop (sep.length - 1) t) []
    else splitOnListAux sep fuel t (c :: acc)

/-- Python `s.split(sep)` on character lists (an empty separator keeps the
input whole, a case the embedded code never exercises). -/
def splitOnList (sep l : List Char) : List (List Char) :=
  if sep = [] then [l] else splitOnListAux sep l.length l []

/-- Replace every non-overlapping occurrence of a non-empty pattern, left to
right (Python `s.replace(pat, sub)`). -/
def replaceAux (pat sub : List Char) : Nat → List Char → List Char
  | _, [] => []
  | 0, l => l
  | fuel + 1, c :: t =>
    if startsWithChars pat (c :: t) then
      sub ++ replaceAux pat sub fuel (List.drop (pat.length - 1) t)
    else c :: replaceAux pat sub fuel t

/-- Python `s.replace(pat, sub)` for the non-empty patterns used here. -/
def pyReplace (s pat sub : String) : String :=
  if pat.toList = [] then s
  else String.mk (replaceAux pat.toList sub.toList s.toList.length s.toList)

/-- Python `s.strip()`: remove leading and trailing whitespace. -/
def pyTrim (s : String) : String :=
  String.mk (((s.toList.dropWhile Char.isWhitespace).reverse.dropWhile
    Char.isWhitespace).reverse)

/-- Python `"".join(l)`. -/
def pyConcat (l : List String) : String := l.foldl (· ++ ·) ""

/-- Python `sep.join(l)`. -/
def pyIntercalate (sep : String) : List String → String
  | [] => ""
  | [x] => x
  | x :: y :: t => x ++ sep ++ pyIntercalate sep (y :: t)

/-- Python `s[:n]`. -/
def pyTake (s : String) (n : Nat) : String := String.mk (s.toList.take n)

/-- Helper for `pyReadlines`: glue the `splitOn`-pieces back into Python
`readlines` form (every line keeps its trailing newline; a final piece that is
empty means the text ended with a newline and contributes no line). -/
def pyReadlinesGo : List String → List String
  | [] => []
  | [last] => if last = "" then [] else [last]
  | p :: rest => (p ++ "\n") :: pyReadlinesGo rest

/-- Python `f.readlines()` of a file's text. -/
def pyReadlines (s : String) : List String :=
  pyReadlinesGo ((splitOnList ['\n'] s.toList).map String.mk)

/-- Model of `os.path.join(root, p)` for the cases arising here: an absolute second
argument discards the root, otherwise the two are joined with a slash (the
workspace root is modelled without a trailing slash). -/
def pyJoin (root p : String) : String :=
  if pyStartsWith p "/" then p else root ++ "/" ++ p

/-- Final path component, as enumerated by `os.walk` (the part after the last
slash). -/
def pyBasename (p : String) : String :=
  match ((splitOnList ['/'] p.toList).map String.mk).getLast? with
  | some b => b
  | none => p

/-- Python `str.lstrip(chars)`: drop leading characters belonging to the
character set. -/
def pyLstrip (s : String) (set : String) : String :=
  String.mk (s.toList.dropWhile (fun c => set.toList.contains c))

/-- Decimal digits to a natural number (Python `int` on a digit string). -/
def digitsToNat (l : List Char) : Nat :=
  l.foldl (fun acc c => acc * 10 + (c.toNat - '0'.toNat)) 0

/-- Python `repr` of a list of strings, as interpolated into the
`FileNotFoundError` message of `_fetch_code`. -/
def pyListRepr (l : List String) : String :=
  "[" ++ pyIntercalate ", " (l.map (fun s => "'" ++ s ++ "'")) ++ "]"

/-- Accumulator-style splitting of a character list into maximal runs
satisfying a class predicate. -/
def runsOfAux (cls : Char → Bool) : List Char → List Char → List (List Char)
  | [], acc => if acc = [] then [] else [acc.reverse]
  | c :: t, acc =>
    if cls c then runsOfAux cls t (c :: acc)
    else if acc = [] then runsOfAux cls t []
    else acc.reverse :: runsOfAux cls t []

/-- Maximal runs of characters satisfying `cls` (the effect of
`re.findall(r'[cls]+', s)`). -/
def runsOf (cls : Char → Bool) (l : List Char) : List (List Char) :=
  runsOfAux cls l []

/-! ## Python syntax trees

`AnalysisTools.get_callers` inspects the result of `ast.parse`.  The standard
library parser is an external facility: the workspace model below carries, for
each file, the parse result the Python runtime would produce (either a tree or
a `SyntaxError`).  The tree shape keeps exactly the distinctions the code
observes: `FunctionDef` nodes with their name and line range, `Call` nodes
whose `func` is a bare `ast.Name` (with the identifier), `Call` nodes whose
`func` is an `ast.Attribute` (such as `obj.f(...)` or `self.f(...)`), and any
other node, reduced to its child list.  `AsyncFunctionDef` is not an
`ast.FunctionDef` instance and the visitor has no handler for it, so async
definitions behave exactly like `other` nodes and are modelled as such. -/

inductive PyNode where
  | mod (body : List PyNode)
  | funcDef (fname : String) (lineno endLineno : Nat) (body : List PyNode)
  | callName (cid : String) (lineno : Nat) (args : List PyNode)
  | callAttr (attrName : String) (lineno : Nat) (children : List PyNode)
  | other (children : List PyNode)

/-- Child nodes, as `ast.iter_child_nodes` exposes them (for a call the
callee's sub-expressions and the arguments). -/
def PyNode.children : PyNode → List PyNode
  | .mod b => b
  | .funcDef _ _ _ b => b
  | .callName _ _ b => b
  | .callAttr _ _ b => b
  | .other b => b

mutual

/-- Number of nodes in a tree (fuel bound for the breadth-first walk). -/
def PyNode.size : PyNode → Nat
  | .mod b => 1 + PyNode.sizeL b
  | .funcDef _ _ _ b => 1 + PyNode.sizeL b
  | .callName _ _ b => 1 + PyNode.sizeL b
  | .callAttr _ _ b => 1 + PyNode.sizeL b
  | .other b => 1 + PyNode.sizeL b

/-- Number of nodes in a forest. -/
def PyNode.sizeL : List PyNode → Nat
  | [] => 0
  | n :: t => PyNode.size n + PyNode.sizeL t

end

mutual

/-- All `FunctionDef` nodes of a tree with their line ranges. -/
def fdNodes : PyNode → List (String × Nat × Nat)
  | .mod b => fdNodesL b
  | .funcDef f a b body => (f, a, b) :: fdNodesL body
  | .callName _ _ b => fdNodesL b
  | .callAttr _ _ b => fdNodesL b
  | .other b => fdNodesL b

/-- All `FunctionDef` nodes of a forest. -/
def fdNodesL : List PyNode → List (String × Nat × Nat)
  | [] => []
  | n :: t => fdNodes n ++ fdNodesL t

end

/-- Names of all `FunctionDef` nodes of a tree. -/
def fdNames (t : PyNode) : List String := (fdNodes t).map (·.1)

/-- Breadth-first scan of `get_callers` (analysis_tools.py lines 386-391):
`for node in ast.walk(tree)` dequeues nodes in breadth-first order (CPython's
`ast.walk` uses a FIFO deque), and the loop breaks at the first `FunctionDef`
whose `[lineno, end_lineno]` range contains the target line.  The fuel
argument bounds the number of dequeued nodes; `PyNode.size` of the initial
queue is always sufficient. -/
def findTargetAux (L : Nat) : Nat → List PyNode → Option String
  | 0, _ => none
  | _ + 1, [] => none
  | fuel + 1, n :: q =>
    match n with
    | .funcDef f a b body =>
      if a ≤ L ∧ L ≤ b then some f else findTargetAux L fuel (q ++ body)
    | _ => findTargetAux L fuel (q ++ n.children)

/-- The function name `get_callers` resolves for a target line: first
`FunctionDef` in breadth-first order whose line range contains the line. -/
def findTarget (t : PyNode) (L : Nat) : Option String :=
  findTargetAux L (PyNode.size t) [t]

mutual

/-- The `FunctionCallVisitor` (analysis_tools.py lines 362-378): collect
`(current_function, lineno)` for every `Call` whose `func` is a bare
`ast.Name` equal to the target, provided the traversal is currently inside a
`FunctionDef` (module-level calls are skipped); `visit_FunctionDef` swaps the
current function name for the duration of the body. -/
def collectCalls (target : String) (cur : Option String) : PyNode → List (String × Nat)
  | .mod b => collectCallsL target cur b
  | .funcDef f _ _ body => collectCallsL target (some f) body
  | .callName cid ln args =>
    (if cid = target then
       match cur with
       | some fn => [(fn, ln)]
       | none => []
     else []) ++ collectCallsL target cur args
  | .callAttr _ _ ch => collectCallsL target cur ch
  | .other ch => collectCallsL target cur ch

/-- The `FunctionCallVisitor` over a forest. -/
def collectCallsL (target : String) (cur : Option String) : List PyNode → List (String × Nat)
  | [] => []
  | n :: t => collectCalls target cur n ++ collectCallsL target cur t

end

mutual

/-- Line numbers of all calls whose callee is the bare name `target`
(attribute calls are a different constructor and never contribute). -/
def bareCallLines (target : String) : PyNode → List Nat
  | .mod b => bareCallLinesL target b
  | .funcDef _ _ _ b => bareCallLinesL target b
  | .callName cid ln args =>
    (if cid = target then [ln] else []) ++ bareCallLinesL target args
  | .callAttr _ _ ch => bareCallLinesL target ch
  | .other ch => bareCallLinesL target ch

/-- Lines of bare target calls over a forest. -/
def bareCallLinesL (target : String) : List PyNode → List Nat
  | [] => []
  | n :: t => bareCallLines target n ++ bareCallLinesL target t

end

/-! ## Workspace model and the call-graph resolver -/

/-- One file of the workspace tree: its path relative to the workspace root,
its text, and the result `ast.parse` would produce on that text (the parser
is external to the repository, so its outcome is supplied as data). -/
structure WEntry where
  relPath : String
  content : String
  parsed : Except String PyNode

/-- The workspace: the files below the workspace root, in `os.walk` order.
No other paths exist on the model filesystem. -/
abbrev Workspace := List WEntry

/-- Translation of `CodeLocation` (analysis_tools.py lines 37-44). -/
structure CodeLocation where
  file_path : String
  line_number : Nat
  function_name : Option String := none
deriving DecidableEq, Repr

/-- Translation of `StackTraceEntry` (analysis_tools.py lines 46-49). -/
structure StackTraceEntry where
  code_location : CodeLocation
  context : Option String := none
deriving DecidableEq, Repr

/-- Resolve `os.path.join(workspace_root, path)` against the model
filesystem: the entry whose absolute name equals the joined path, if any. -/
def resolveUnderRoot (ws : Workspace) (root : String) (path : String) : Option WEntry :=
  ws.find? (fun e => pyJoin root e.relPath == pyJoin root path)

/-- Translation of `AnalysisTools.get_callers` (analysis_tools.py lines 352-426): parse the
target file, resolve the enclosing function name via the breadth-first scan,
then run the call visitor over every `.py` file of the workspace; any failure
(missing file, parse error) is caught and yields `[]` / skips the file. -/
def getCallers (ws : Workspace) (root : String) (loc : CodeLocation) : List CodeLocation :=
  match resolveUnderRoot ws root loc.file_path with
  | none => []
  | some seed =>
    match seed.parsed with
    | .error _ => []
    | .ok tree =>
      match findTarget tree loc.line_number with
      | none => []
      | some target =>
        ws.flatMap (fun e =>
          if pyEndsWith (pyBasename e.relPath) ".py" then
            match e.parsed with
            | .error _ => []
            | .ok t =>
              (collectCalls target none t).map
                (fun pr => { file_path := e.relPath, line_number := pr.2,
                             function_name := some pr.1 })
          else [])

/-- Translation of `AnalysisTools.get_code_block` (analysis_tools.py lines 428-458). -/
def getCodeBlock (ws : Workspace) (root : String) (loc : CodeLocation)
    (contextLines : Nat) : String :=
  match resolveUnderRoot ws root loc.file_path with
  | none => "Error: File not found: " ++ pyJoin root loc.file_path
  | some e =>
    let lines := pyReadlines e.content
    let a := loc.line_number - contextLines - 1
    let b := min lines.length (loc.line_number + contextLines)
    let block := pyConcat ((lines.drop a).take (b - a))
    "File: " ++ loc.file_path ++ ", Lines " ++ toString (a + 1) ++ "-" ++ toString b ++
      "\n\n" ++ block

/-- Translation of `build_stack_trace` (analysis_tools.py lines 309-339).  The fuel argument
is `max_depth - depth`: the Python guard `depth >= max_depth` is the fuel-zero
case.  The visited set becomes an explicit list (`add` before each recursive
call, `remove` after, so sibling callers see the caller's set unchanged, which
the per-caller `visited ++ [key]` reproduces); the per-caller traces each get
the current entry appended, and an empty harvest falls back to the
single-entry trace. -/
def buildStackTrace (ws : Workspace) (root : String) :
    Nat → CodeLocation → List String → List (List StackTraceEntry)
  | 0, _, _ => [[]]
  | fuel + 1, loc, visited =>
    let entry : StackTraceEntry := ⟨loc, some (getCodeBlock ws root loc 2)⟩
    let callers := getCallers ws root loc
    if callers = [] then [[entry]]
    else
      let traces := (callers.map (fun c =>
        let key := c.file_path ++ ":" ++ toString c.line_number
        if key ∈ visited then []
        else buildStackTrace ws root fuel c (visited ++ [key]))).flatten
      if traces = [] then [[entry]] else traces.map (· ++ [entry])

/-- Python `max(traces, key=len)`: the first trace of maximal length (later
entries replace the current best only when strictly longer). -/
def maxByLen (l : List (List StackTraceEntry)) : List StackTraceEntry :=
  match l with
  | [] => []
  | x :: t => t.foldl (fun best y => if best.length < y.length then y else best) x

/-- Translation of `AnalysisTools.get_stack_trace` (analysis_tools.py lines 298-350): build
all candidate traces from the location and return the longest one. -/
def getStackTrace (ws : Workspace) (root : String) (loc : CodeLocation)
    (maxDepth : Nat) : List StackTraceEntry :=
  maxByLen (buildStackTrace ws root maxDepth loc [])

/-! ## Spec-side definition for the refinement claim about enclosing functions

The analyzer code resolves the enclosing function with a breadth-first walk;
the specification instead speaks of the innermost definition.  The following
definition is the comparison point and follows the spec's words, not the
code. -/

mutual

/-- Modelled from the spec: "the innermost function definition whose line
range contains `location.line_number`" — descend into nested definitions as
long as one still contains the line. -/
def innermostEnclosing (L : Nat) : PyNode → Option String
  | .mod b => innermostEnclosingL L b
  | .funcDef f a b body =>
    if a ≤ L ∧ L ≤ b then some ((innermostEnclosingL L body).getD f)
    else innermostEnclosingL L body
  | .callName _ _ args => innermostEnclosingL L args
  | .callAttr _ _ ch => innermostEnclosingL L ch
  | .other ch => innermostEnclosingL L ch

/-- The innermost enclosing definition over a forest: first child that yields a result. -/
def innermostEnclosingL (L : Nat) : List PyNode → Option String
  | [] => none
  | n :: t =>
    match innermostEnclosing L n with
    | some f => some f
    | none => innermostEnclosingL L t

end

/-! ## `RootCauseAnalyzer.send_code` (analyzer.py lines 252-290)

The function receives `"file:line"`; splitting and `int()` conversion happen
before the `try` block, so the model takes the already separated file path and
numeric target line.  The file table maps openable paths to their text. -/

/-- Result of `send_code`: the success dictionary or the error dictionary. -/
inductive SendCodeResult where
  | ok (file_path : String) (start_line end_line target_line : Nat) (code : String)
  | fileError (file_path : String) (error : String)
deriving DecidableEq, Repr

/-- Translation of `RootCauseAnalyzer.send_code`: clamp each window bound to the file
independently (`start_line = max(1, target - context)`,
`end_line = min(len(lines), target + context)`) and render
`range(start_line - 1, end_line)` with 1-based line number tags; `open`
failures become the error dictionary. -/
def sendCode (files : List (String × String)) (file_path : String)
    (target_line : Nat) (context_lines : Nat) : SendCodeResult :=
  match files.find? (fun p => p.1 == file_path) with
  | none =>
    .fileError file_path
      ("Could not read file: [Errno 2] No such file or directory: '" ++ file_path ++ "'")
  | some pr =>
    let lines := pyReadlines pr.2
    let start_line := max 1 (target_line - context_lines)
    let end_line := min lines.length (target_line + context_lines)
    let idxs := List.range' (start_line - 1) (end_line - (start_line - 1))
    let code := pyConcat (idxs.map (fun i => toString (i + 1) ++ ": " ++ lines.getD i ""))
    .ok file_path start_line end_line target_line code

/-! ## The analyzer session model

`Analyzer.analyze` (analysis_tools.py lines 534-636) drives the session by
recursing after each executed tool.  The model below turns one recursive call
into one `step` of an explicit loop.  The external LLM service
(`self.client.messages.create` inside `ClaudeClient.analyze_error`) is
scripted as a list of behaviors, each either a raised exception rendered as
`str(e)` or a response content array.  `wait_if_needed` only sleeps here: the
`Analyzer` constructs a fresh `ClaudeClient`, whose `RateLimitState` keeps
`requests_remaining = 50 > 0` because `update_from_headers` is only invoked
when the SDK response exposes raw headers (modelled as absent), so the
throttle loop never takes the quota branch and never raises. -/

/-- The `tool_executed` dictionary `{"type": info_type, "context": info_context}`
recorded on a finding after a tool ran (`info_type` is `params.get("type")`
and may be `None`). -/
structure ToolExec where
  ttype : Option String
  tcontext : String
deriving DecidableEq, Repr

/-- One entry of `context.current_findings`: the dictionaries appended by
`_fetch_files` / `_fetch_logs` / `_fetch_code`, with optional keys modelled as
`Option` fields (`none` = key absent, so record equality coincides with
Python dict equality). -/
structure Finding where
  ftype : String
  context : String
  result : String
  file_contents : Option (List (String × String)) := none
  local_path : Option String := none
  tool_executed : Option ToolExec := none
deriving DecidableEq, Repr

/-- The `params` dictionary of a tool call, holding the keys the Analyzer
reads (`type`, `context`) and the one `show_root_cause` reads (`root_cause`). -/
structure ToolInput where
  ptype : Option String := none
  pcontext : Option String := none
  prootCause : Option String := none
deriving DecidableEq, Repr

/-- One element of the response content array: a `tool_use` block or a text
block. -/
inductive ContentItem where
  | toolUse (name : String) (input : ToolInput)
  | text (body : String)
deriving DecidableEq, Repr

/-- One behavior of the external LLM API call: a returned content array or a
raised exception rendered as `str(e)`. -/
abbrev ApiBehavior := Except String (List ContentItem)

/-- Decidable equality for `Except` values (needed to evaluate concrete runs). -/
instance exceptDecEq {α β : Type} [DecidableEq α] [DecidableEq β] :
    DecidableEq (Except α β) := fun x y =>
  match x, y with
  | .error a, .error b =>
    if h : a = b then isTrue (by rw [h]) else isFalse (by intro hh; cases hh; exact h rfl)
  | .error _, .ok _ => isFalse (by intro hh; cases hh)
  | .ok _, .error _ => isFalse (by intro hh; cases hh)
  | .ok a, .ok b =>
    if h : a = b then isTrue (by rw [h]) else isFalse (by intro hh; cases hh; exact h rfl)

/-- The dictionary returned by `ClaudeClient.analyze_error` (keys `tool`,
`params`, `analysis`, `error`, `current_analysis`). -/
structure AnalyzeErrorResult where
  tool : Option String
  params : ToolInput
  analysis : String
  error : Option String
  current_analysis : Option String
deriving DecidableEq, Repr

/-- Translation of `ClaudeClient.analyze_error` (claude_client.py lines 209-359).  With a
non-empty findings list the prompt formatting runs `findings.items()` on a
Python list and raises `AttributeError`, which the generic handler turns into
a tool-less result without consulting the API.  With empty findings the next
scripted API behavior is consumed: an exception whose text mentions
`rate_limit_error` triggers the 5-second cool-down and the soft quota result;
any other exception is returned as a tool-less error result; a response is
scanned for the last `tool_use` block (the loop overwrites earlier ones) and
the last text block (split at a `Tool Choice:` marker and stripped) for the
updated memo.  Returns `(result, seconds slept, remaining script)`; `none`
only when the script is exhausted (a model artifact meaning the service never
answered). -/
def analyzeError (findings : List Finding) (memo : Option String)
    (api : List ApiBehavior) : Option (AnalyzeErrorResult × Nat × List ApiBehavior) :=
  if findings ≠ [] then
    some ({ tool := none, params := {}, analysis := "",
            error := some "'list' object has no attribute 'items'",
            current_analysis := memo }, 0, api)
  else
    match api with
    | [] => none
    | Except.error msg :: rest =>
      if strContains msg "rate_limit_error" then
        some ({ tool := none, params := {},
                analysis := "Rate limit reached. Please try again with a smaller context.",
                error := some "Rate limit error", current_analysis := memo }, 5, rest)
      else
        some ({ tool := none, params := {}, analysis := "", error := some msg,
                current_analysis := memo }, 0, rest)
    | Except.ok items :: rest =>
      let toolRes : Option AnalyzeErrorResult := items.foldl (fun acc it =>
        match it with
        | .toolUse n inp =>
          some { tool := some n, params := inp, analysis := "", error := none,
                 current_analysis := none }
        | .text _ => acc) none
      let memo2 : Option String := items.foldl (fun acc it =>
        match it with
        | .text t =>
          some (pyTrim (String.mk
            ((splitOnList ("\nTool Choice:".toList) t.toList).headD t.toList)))
        | .toolUse _ _ => acc) none
      match toolRes with
      | some r => some ({ r with current_analysis := memo2 }, 0, rest)
      | none =>
        some ({ tool := none, params := {}, analysis := "No valid response from LLM",
                error := none, current_analysis := memo2 }, 0, rest)

/-! ### The local tools dispatched by the loop -/

/-- The character class of `_fetch_files`' pattern regex `[\w\-\.\/]+` and of
`_fetch_code`'s path regex (ASCII; the inputs handled here are ASCII). -/
def fpCls (c : Char) : Bool :=
  c.isAlpha || c.isDigit || c == '_' || c == '-' || c == '.' || c == '/'

/-- ASCII letter or digit (the `[a-zA-Z0-9]` class). -/
def isAlnumA (c : Char) : Bool := c.isAlpha || c.isDigit

/-- Pattern extraction of `_fetch_files` (analysis_tools.py lines 638-695): candidate patterns are
the maximal `[\w\-\.\/]` runs of the context longer than 3 characters. -/
def fetchFilesPatterns (ctx : String) : List String :=
  ((runsOf fpCls ctx.toList).map (fun r => String.mk r)).filter (fun p => 3 < p.length)

/-- Translation of `_fetch_files`: for each of the first three patterns, scan the workspace
for files whose base name contains the pattern case-insensitively, read the
first three matches (first 2000 characters each), and append one finding per
pattern; display messages accompany the scan.  Returns the appended findings
and the displayed strings. -/
def fetchFiles (ws : Workspace) (ctx : String) : List Finding × List String :=
  let patterns := (fetchFilesPatterns ctx).take 3
  let perPattern := patterns.map (fun p =>
    let matching := ws.filter (fun e => strContainsCI (pyBasename e.relPath) p)
    let fcs := (matching.take 3).map (fun e => (e.relPath, pyTake e.content 2000))
    (({ ftype := "fetch_files", context := p,
        result := "Found " ++ toString matching.length ++ " files matching '" ++ p ++
          "'.\n" ++ "Examined contents of " ++ toString fcs.length ++ " files.",
        file_contents := some fcs } : Finding), fcs.length))
  let total := (perPattern.map (·.2)).foldl (· + ·) 0
  (perPattern.map (·.1),
   ["Searching for files related to: " ++ ctx, "Files found: " ++ toString total])

/-- Translation of `_fetch_logs` (analysis_tools.py lines 697-713): always appends the one
fixed finding. -/
def fetchLogs (ctx : String) : List Finding × List String :=
  ([{ ftype := "fetch_logs", context := ctx, result := "Using initial input as logs" }],
   ["Log analysis requested for: " ++ ctx, "Using initial input as logs"])

/-- Whether `\d+\.\d+\.\d+` matches as a prefix of a character list (the version part of the
gem-name regex in `_translate_path`). -/
def startsWithVersion (s : List Char) : Bool :=
  let d1 := s.takeWhile Char.isDigit
  if d1 = [] then false else
  match s.drop d1.length with
  | '.' :: r1 =>
    let d2 := r1.takeWhile Char.isDigit
    if d2 = [] then false else
    match r1.drop d2.length with
    | '.' :: r2 => (r2.takeWhile Char.isDigit) ≠ []
    | _ => false
  | _ => false

/-- Whether `re.match(r'([^-]+(?:-[^-]+)*)-\d+\.\d+\.\d+', gv)` succeeds: some
non-empty dash-separated segments followed by a segment starting with a
three-component numeric version. -/
def gemVersionMatch (gv : String) : Bool :=
  let segs := (splitOnList ['-'] gv.toList).map String.mk
  (List.range segs.length).any (fun k =>
    decide (1 ≤ k) && (segs.take k).all (fun x => x != "") &&
      startsWithVersion (segs.getD k "").toList)

/-- Python `s.split('/', 1)` when a slash is present. -/
def splitOnceSlash (s : String) : Option (String × String) :=
  let l := s.toList
  let pre := l.takeWhile (fun c => c != '/')
  if pre.length = l.length then none
  else some (String.mk pre, String.mk (l.drop (pre.length + 1)))

/-- Translation of `Analyzer._translate_path` (analysis_tools.py lines 715-806), modelled for
an environment without RVM (`self.rvm_gemset_path = None`: `rvm` is not
installed and `~/.rvm/gems` does not exist).  In that environment the
vendored-gem lookup at line 769 reads the function-local name `glob`, which is
bound only by the `import glob` statement inside the skipped
`if self.rvm_gemset_path:` block, so a production gem path whose first
component carries a `name-X.Y.Z` version raises `UnboundLocalError`; the
`/opt/` and `/app/` prefixes are rewritten with `str.replace` / `str.lstrip`
exactly as the code does, and the untranslated path (absolute, or joined to
the workspace root) is always the final fallback. -/
def translatePath (root : String) (p0 : String) : Except String (List String) :=
  let p := pyTrim p0
  let fallback := if pyStartsWith p "/" then [p] else [pyJoin root p]
  if pyStartsWith p "/usr/local/bundle/gems/" then
    let gemPath := pyReplace p "/usr/local/bundle/gems/" ""
    match splitOnceSlash gemPath with
    | some (gv, _) =>
      if gemVersionMatch gv then
        Except.error "local variable 'glob' referenced before assignment"
      else Except.ok fallback
    | none => Except.ok fallback
  else if pyStartsWith p "/opt/" then
    Except.ok ([pyJoin root (pyReplace p "/opt/mastodon/" "")] ++ fallback)
  else if pyStartsWith p "/app/" then
    Except.ok ([pyJoin root (pyLstrip p "/app/")] ++ fallback)
  else Except.ok fallback

/-- Whether a candidate path exists on the model filesystem (only files below
the workspace root exist). -/
def pathExists (ws : Workspace) (root : String) (path : String) : Bool :=
  ws.any (fun e => pyJoin root e.relPath == path)

/-- Text of the file at an existing path. -/
def contentOf (ws : Workspace) (root : String) (path : String) : String :=
  match ws.find? (fun e => pyJoin root e.relPath == path) with
  | some e => e.content
  | none => ""

/-- Largest prefix-length `k` usable by the backtracking engine for the path
regex `([a-zA-Z0-9_\-\.\/]+\.[a-zA-Z0-9]+)`: the largest `k ≥ 1` with a dot at
offset `k` of the class run and an alphanumeric character right after it. -/
def lastDotIdx (run : List Char) : Option Nat :=
  (List.range run.length).foldl (fun acc k =>
    if 1 ≤ k ∧ run.getD k ' ' = '.' ∧ k + 1 < run.length ∧ isAlnumA (run.getD (k + 1) ' ') = true
    then some k else acc) none

/-- One attempted match of `([a-zA-Z0-9_\-\.\/]+\.[a-zA-Z0-9]+):?(\d+)?` at
the head of the input, following the greedy/backtracking semantics of
`re.findall`: the class run backtracks to the last dot followed by an
alphanumeric, the extension is the maximal alphanumeric run after it, then an
optional colon and optional digit group.  Returns the two groups and the rest
of the input after the match. -/
def pathMatchAt (s : List Char) : Option ((String × String) × List Char) :=
  let run := s.takeWhile fpCls
  match lastDotIdx run with
  | none => none
  | some k =>
    let m := ((run.drop (k + 1)).takeWhile isAlnumA).length
    let g1 := String.mk (run.take (k + 1 + m))
    let rest0 := s.drop (k + 1 + m)
    match rest0 with
    | ':' :: r1 =>
      let ds := r1.takeWhile Char.isDigit
      some ((g1, String.mk ds), r1.drop ds.length)
    | _ => some ((g1, ""), rest0)

/-- The scan loop of `re.findall` for the path regex: try a match at each
position, jumping over matched text; the fuel (initially the input length)
dominates the number of scan positions since every step consumes at least one
character. -/
def pathFindallAux : Nat → List Char → List (String × String)
  | 0, _ => []
  | _ + 1, [] => []
  | fuel + 1, c :: t =>
    match pathMatchAt (c :: t) with
    | some (g, rest) => g :: pathFindallAux fuel rest
    | none => pathFindallAux fuel t

/-- Model of `re.findall` for the path regex of `_fetch_code`, the file
reference extraction of `_fetch_code`. -/
def pathFindall (s : String) : List (String × String) :=
  pathFindallAux s.toList.length s.toList

/-- One iteration of the `for file_path, line_str in matches` loop of
`_fetch_code` (analysis_tools.py lines 833-891): translate the path, try the
candidates in order, read a `[line-20, line+21)` slice of the found file, and
append a success finding; any exception is caught and appended as an error
finding whose `context` is the whole original context string.  Returns the finding
and the displayed strings for this match. -/
def fetchCodeOne (ws : Workspace) (root : String) (codeCtx fp lineStr : String) :
    Finding × List String :=
  let ln : Nat := if lineStr = "" then 1 else digitsToNat lineStr.toList
  let res : Except String (String × String) :=
    match translatePath root fp with
    | .error e => .error e
    | .ok paths =>
      match paths.find? (fun q => pathExists ws root q) with
      | none => .error ("File not found in any of the possible locations: " ++ pyListRepr paths)
      | some found =>
        let lines := pyReadlines (contentOf ws root found)
        let a := ln - 20
        let b := min lines.length (ln + 21)
        .ok (found, pyConcat ((lines.drop a).take (b - a)))
  match res with
  | .error e =>
    let msg := "Error fetching code for " ++ fp ++ ": " ++ e
    ({ ftype := "fetch_code", context := codeCtx, result := msg }, [msg])
  | .ok (found, code) =>
    ({ ftype := "fetch_code", context := fp ++ ":" ++ toString ln,
       result := "Code from " ++ fp ++ " (line " ++ toString ln ++ "):\n\n" ++ code,
       local_path := some found },
     ["Fetched code from " ++ fp ++ " around line " ++ toString ln])

/-- Translation of `Analyzer._fetch_code` (analysis_tools.py lines 808-891): extract file
references from the context; with none, append the fixed no-reference
finding; otherwise handle each reference in order. -/
def fetchCode (ws : Workspace) (root : String) (codeCtx : String) :
    List Finding × List String :=
  let ms := pathFindall codeCtx
  if ms = [] then
    ([{ ftype := "fetch_code", context := codeCtx, result := "No file references found" }],
     ["Fetching code related to: " ++ codeCtx, "No file references found in context"])
  else
    let per := ms.map (fun g => fetchCodeOne ws root codeCtx g.1 g.2)
    (per.map (·.1),
     ["Fetching code related to: " ++ codeCtx] ++ (per.map (·.2)).flatten)

/-! ### The loop state machine -/

/-- Terminal outcomes of a session, one per `return` / uncaught exception of
`Analyzer.analyze`, plus the model artifacts `outOfApi` (the scripted service
gave no further answer) and `fuelOut` (the model's step budget ran out — the
Python loop would still be running). -/
inductive Outcome where
  | rootCause (txt : String)
  | unknownTool (shown : String)
  | unknownInfoType (shown : String)
  | repeatedFinding
  | repeatedTool
  | iterationCap
  | indexError
  | outOfApi
  | fuelOut
deriving DecidableEq, Repr

/-- Observable session state: the findings list, the log of findings exactly
as appended (before any later in-place mutation), everything sent to the
display callback, the remaining scripted API behaviors, the number of
`analyze` invocations so far, the executed `tool_executed` records, and the
total seconds slept in cool-downs. -/
structure LoopState where
  findings : List Finding
  appendLog : List Finding
  displayed : List String
  api : List ApiBehavior
  iters : Nat
  execLog : List ToolExec
  slept : Nat
deriving DecidableEq, Repr

/-- Result of one `analyze` invocation: the session returns (or crashes) with
an outcome, or recurses on an updated state. -/
inductive StepRes where
  | halt (o : Outcome) (s : LoopState)
  | next (s : LoopState)
deriving DecidableEq, Repr

/-- Send one string to the display callback. -/
def pushD (s : LoopState) (m : String) : LoopState :=
  { s with displayed := s.displayed ++ [m] }

/-- Python `f"{x}"` for an optional string (`None` prints as `None`). -/
def pyStr : Option String → String
  | none => "None"
  | some s => s

/-- The in-place marker assignment on the last finding: set the
marker on the last finding (the list is non-empty whenever this is reached
without raising). -/
def markLast (cur : ToolExec) : List Finding → List Finding
  | [] => []
  | [last] => [{ last with tool_executed := some cur }]
  | a :: b :: t => a :: markLast cur (b :: t)

/-- The repetition guard of `analyze` (lines 556-564): the most recent finding
equals some earlier finding. -/
def repeatedLast (l : List Finding) : Bool :=
  match l.getLast? with
  | none => false
  | some last => l.dropLast.any (fun f => f == last)

/-- Execute one fetch tool: record displays and the append log, then either
crash with `IndexError` (`current_findings[-1]` on an empty list, only
possible when the tool appended nothing to an empty session) or set the
`tool_executed` marker on the last finding and recurse. -/
def execFetch (s : LoopState) (cur : ToolExec) (res : List Finding × List String) : StepRes :=
  let s1 := { s with displayed := s.displayed ++ res.2, appendLog := s.appendLog ++ res.1 }
  let fs2 := s.findings ++ res.1
  match fs2.getLast? with
  | none => .halt .indexError s1
  | some _ => .next { s1 with findings := markLast cur fs2, execLog := s1.execLog ++ [cur] }

/-- The stop notice of the iteration guard (analysis_tools.py line 553). -/
def capMsg : String := "Analysis stopped: Too many iterations without finding root cause"

/-- The stop notice of the repetition guard (line 563). -/
def repMsg : String := "Analysis stopped: Detected repeated analysis"

/-- Action interpretation of `analyze` (lines 570-636), given the dictionary
returned by `analyze_error`: display its analysis text when non-empty, then
dispatch on the tool name — `show_root_cause` terminates with the root cause,
`get_info` checks the repeated-tool guard and runs one of the three fetch
tools (an unknown info type terminates), and any other tool name (including
`None`) terminates the session with the unknown-tool notice. -/
def dispatch (ws : Workspace) (root : String) (s0 : LoopState)
    (r : AnalyzeErrorResult) : StepRes :=
  let s := if r.analysis = "" then s0 else pushD s0 r.analysis
  match r.tool with
  | some "show_root_cause" =>
    let rc := r.params.prootCause.getD "No root cause analysis provided"
    .halt (.rootCause rc) (pushD s ("Root Cause Analysis:\n" ++ rc))
  | some "get_info" =>
    let infoType := r.params.ptype
    let infoCtx := r.params.pcontext.getD ""
    let cur : ToolExec := ⟨infoType, infoCtx⟩
    if s.findings.any (fun f => f.tool_executed == some cur) then
      .halt .repeatedTool (pushD s "Analysis stopped: Repeated tool execution detected")
    else
      match infoType with
      | some "fetch_files" => execFetch s cur (fetchFiles ws infoCtx)
      | some "fetch_logs" => execFetch s cur (fetchLogs infoCtx)
      | some "fetch_code" => execFetch s cur (fetchCode ws root infoCtx)
      | t => .halt (.unknownInfoType (pyStr t)) (pushD s ("Unknown info type: " ++ pyStr t))
  | t => .halt (.unknownTool (pyStr t)) (pushD s ("Unknown tool: " ++ pyStr t))

/-- One invocation of `Analyzer.analyze` on an existing context: the iteration
guard (`len(current_findings) > 50`), the repetition guard, then the
`analyze_error` call and the action dispatch. -/
def step (ws : Workspace) (root : String) (s0 : LoopState) : StepRes :=
  let s := { s0 with iters := s0.iters + 1 }
  if 50 < s.findings.length then .halt .iterationCap (pushD s capMsg)
  else if repeatedLast s.findings then .halt .repeatedFinding (pushD s repMsg)
  else
    match analyzeError s.findings none s.api with
    | none => .halt .outOfApi s
    | some (r, slp, rest) => dispatch ws root { s with api := rest, slept := s.slept + slp } r

/-- Iterate `step` under a fuel budget. -/
def loopRun (ws : Workspace) (root : String) : Nat → LoopState → Outcome × LoopState
  | 0, s => (.fuelOut, s)
  | n + 1, s =>
    match step ws root s with
    | .halt o s2 => (o, s2)
    | .next s2 => loopRun ws root n s2

/-- The state of a fresh session (`analyze` called with `context=None`). -/
def initState (api : List ApiBehavior) : LoopState :=
  { findings := [], appendLog := [], displayed := [], api := api, iters := 0,
    execLog := [], slept := 0 }

/-- A fresh `Analyzer.analyze` session against a scripted service, allowed up
to `MAX_ITERATIONS = 50` model steps (the bound the claims speak about). -/
def analyzeRun (ws : Workspace) (root : String) (_initialInput : String)
    (api : List ApiBehavior) : Outcome × LoopState :=
  loopRun ws root 50 (initState api)

/-- The session state carried by a step result (the context on which
`analyze` returned or recursed). -/
def StepRes.state : StepRes → LoopState
  | .halt _ s => s
  | .next s => s

/-- Forget the `tool_executed` marker of a finding (for comparing a finding
with the value it had at the moment it was appended). -/
def eraseMarker (f : Finding) : Finding := { f with tool_executed := none }

/-! ## Concrete fixtures used by counterexamples and witnesses -/

/-- A script whose single response asks for `fetch_files` on a context whose
two tokens are the same pattern, making `_fetch_files` append two structurally
identical findings in one execution. -/
def apiTwinPatterns : List ApiBehavior :=
  [Except.ok [ContentItem.toolUse "get_info"
    { ptype := some "fetch_files", pcontext := some "pattern pattern" }]]

/-- A script whose single response asks for `fetch_logs`. -/
def apiOneFetchLogs : List ApiBehavior :=
  [Except.ok [ContentItem.toolUse "get_info"
    { ptype := some "fetch_logs", pcontext := some "ctx" }]]

/-- A script answering with a plain text message first and a root cause
second: if the loop continued after commentary, the root cause would be
reached. -/
def apiTextThenRootCause : List ApiBehavior :=
  [Except.ok [ContentItem.text "just commentary"],
   Except.ok [ContentItem.toolUse "show_root_cause" { prootCause := some "RC" }]]

/-- A module with an inner function nested in an outer one, both containing
line 4. -/
def nestedTree : PyNode :=
  .mod [.funcDef "outer" 1 10 [.funcDef "inner" 3 6 [.other []]]]

/-- A ten-line file. -/
def tenLineFile : String := "l1\nl2\nl3\nl4\nl5\nl6\nl7\nl8\nl9\nl10\n"

/-- A workspace exercising every exclusion of `get_callers`: a seed file
defining `target_fn`, a caller inside a function, an attribute call, a
module-level call, and a call in a non-Python file. -/
def wsCallers : Workspace :=
  [⟨"main.py", "", Except.ok (.mod [.funcDef "target_fn" 1 3 [.other []]])⟩,
   ⟨"caller.py", "", Except.ok (.mod [.funcDef "g" 1 5 [.callName "target_fn" 3 []]])⟩,
   ⟨"attr.py", "", Except.ok (.mod [.funcDef "h" 1 5 [.callAttr "target_fn" 3 []]])⟩,
   ⟨"toplevel.py", "", Except.ok (.mod [.callName "target_fn" 1 []])⟩,
   ⟨"notpy.txt", "", Except.ok (.mod [.funcDef "k" 1 5 [.callName "target_fn" 2 []]])⟩]

/-- A placeholder finding. -/
def fDummy : Finding :=
  { ftype := "fetch_logs", context := "c", result := "r" }

/-- A session state holding 51 findings (as after a `fetch_code` answer
carrying 51 file references), about to trip the iteration guard. -/
def s51 : LoopState :=
  { findings := List.replicate 51 fDummy, appendLog := [], displayed := [],
    api := [], iters := 0, execLog := [], slept := 0 }

/-- A session state whose last finding repeats an earlier one. -/
def sRep : LoopState :=
  { findings := [fDummy, fDummy], appendLog := [], displayed := [],
    api := [], iters := 0, execLog := [], slept := 0 }

/-- A session state carrying a finding whose `tool_executed` marker matches
the request in `rReq`. -/
def sMarked : LoopState :=
  { findings := [{ fDummy with tool_executed := some ⟨some "fetch_logs", "ctx"⟩ }],
    appendLog := [], displayed := [], api := [], iters := 0, execLog := [], slept := 0 }

/-- A `get_info` request for `fetch_logs` with context `ctx`. -/
def rReq : AnalyzeErrorResult :=
  { tool := some "get_info", params := { ptype := some "fetch_logs", pcontext := some "ctx" },
    analysis := "", error := none, current_analysis := none }

/-! ## Helper lemmas about the session step -/

/-- The findings-up-to-marker invariant: the findings list agrees with the
append log except possibly in `tool_executed` markers. -/
def FindingsMatchLog (s : LoopState) : Prop :=
  s.findings.map eraseMarker = s.appendLog.map eraseMarker

/-- Setting the marker on the last finding changes nothing besides markers. -/
theorem markLast_map_erase (cur : ToolExec) :
    ∀ l : List Finding, (markLast cur l).map eraseMarker = l.map eraseMarker
  | [] => rfl
  | [_] => rfl
  | a :: b :: t => by
    simpa [markLast] using markLast_map_erase cur (b :: t)

/-- Executing a fetch preserves the findings-up-to-marker invariant. -/
theorem execFetch_inv (s : LoopState) (cur : ToolExec) (res : List Finding × List String)
    (h : FindingsMatchLog s) : FindingsMatchLog (execFetch s cur res).state := by
  unfold execFetch
  dsimp only
  split
  · next heq =>
    rcases List.append_eq_nil.mp (List.getLast?_eq_none_iff.mp heq) with ⟨h1, h2⟩
    simpa [StepRes.state, FindingsMatchLog, h1, h2] using h
  · next heq =>
    simp only [StepRes.state, FindingsMatchLog, markLast_map_erase, List.map_append]
    exact congrArg (· ++ res.1.map eraseMarker) h

/-- Dispatching preserves the findings-up-to-marker invariant. -/
theorem dispatch_inv (ws : Workspace) (root : String) (s : LoopState)
    (r : AnalyzeErrorResult) (h : FindingsMatchLog s) :
    FindingsMatchLog (dispatch ws root s r).state := by
  unfold dispatch
  dsimp only
  repeat' split
  all_goals first
    | exact h
    | exact execFetch_inv _ _ _ h

/-- Behavior of `analyze_error` with a non-empty findings list: the `findings.items()`
call raises `AttributeError` before the API is reached, and the generic
handler returns the tool-less result without consuming a scripted behavior. -/
theorem analyzeError_of_ne (findings : List Finding) (memo : Option String)
    (api : List ApiBehavior) (h : findings ≠ []) :
    analyzeError findings memo api =
      some ({ tool := none, params := {}, analysis := "",
              error := some "'list' object has no attribute 'items'",
              current_analysis := memo }, 0, api) := by
  unfold analyzeError
  rw [if_pos h]

/-- A session whose context already has findings can only return: the guards
fire, or `analyze_error` yields no tool and the dispatch falls into the
unknown-tool return. -/
theorem step_halts_of_ne (ws : Workspace) (root : String) (s : LoopState)
    (h : s.findings ≠ []) : ∃ o s2, step ws root s = .halt o s2 := by
  unfold step
  dsimp only
  split
  · exact ⟨_, _, rfl⟩
  · split
    · exact ⟨_, _, rfl⟩
    · rw [analyzeError_of_ne _ _ _ h]
      exact ⟨_, _, rfl⟩

/-- Stepping preserves the findings-up-to-marker invariant. -/
theorem step_inv (ws : Workspace) (root : String) (s : LoopState)
    (h : FindingsMatchLog s) : FindingsMatchLog (step ws root s).state := by
  unfold step
  dsimp only
  split
  · exact h
  · split
    · exact h
    · split
      · exact h
      · exact dispatch_inv _ _ _ _ h

/-- Executing a fetch leaves the execution log untouched when it crashes and
records exactly one execution when it recurses. -/
theorem execFetch_execLog (s : LoopState) (cur : ToolExec)
    (res : List Finding × List String) :
    (∀ o s2, execFetch s cur res = .halt o s2 → s2.execLog = s.execLog) ∧
    (∀ s2, execFetch s cur res = .next s2 → s2.execLog = s.execLog ++ [cur]) := by
  unfold execFetch
  dsimp only
  constructor
  · intro o s2 hh
    split at hh
    · cases hh; rfl
    · cases hh
  · intro s2 hh
    split at hh
    · cases hh
    · cases hh; rfl

/-- A marker update never empties a list. -/
theorem markLast_ne_nil (cur : ToolExec) :
    ∀ l : List Finding, l ≠ [] → markLast cur l ≠ []
  | [], h => absurd rfl h
  | [_], _ => by simp [markLast]
  | _ :: _ :: _, _ => by simp [markLast]

/-- Dispatching leaves the execution log untouched on every return and records
exactly one execution when it recurses. -/
theorem dispatch_execLog (ws : Workspace) (root : String) (s : LoopState)
    (r : AnalyzeErrorResult) :
    (∀ o s2, dispatch ws root s r = .halt o s2 → s2.execLog = s.execLog) ∧
    (∀ s2, dispatch ws root s r = .next s2 → ∃ cur, s2.execLog = s.execLog ++ [cur]) := by
  unfold dispatch
  dsimp only
  constructor
  · intro o s2 hh
    repeat' split at hh
    all_goals first
      | (cases hh; rfl)
      | exact ((execFetch_execLog _ _ _).1 _ _ hh).trans rfl
  · intro s2 hh
    repeat' split at hh
    all_goals first
      | cases hh
      | exact ⟨_, ((execFetch_execLog _ _ _).2 _ hh).trans rfl⟩

/-- Stepping leaves the execution log untouched on every return and grows it by
one entry when it recurses. -/
theorem step_execLog (ws : Workspace) (root : String) (s : LoopState) :
    (∀ o s2, step ws root s = .halt o s2 → s2.execLog = s.execLog) ∧
    (∀ s2, step ws root s = .next s2 → s2.execLog.length = s.execLog.length + 1) := by
  unfold step
  dsimp only
  constructor
  · intro o s2 hh
    split at hh
    · cases hh; rfl
    · split at hh
      · cases hh; rfl
      · split at hh
        · cases hh; rfl
        · exact ((dispatch_execLog _ _ _ _).1 _ _ hh).trans rfl
  · intro s2 hh
    split at hh
    · cases hh
    · split at hh
      · cases hh
      · split at hh
        · cases hh
        · obtain ⟨cur, hcur⟩ := (dispatch_execLog _ _ _ _).2 _ hh
          rw [hcur]
          simp

/-- Stepping recurses only with a non-empty findings list. -/
theorem step_next_findings_ne (ws : Workspace) (root : String) (s : LoopState)
    (s2 : LoopState) (hh : step ws root s = .next s2) : s2.findings ≠ [] := by
  unfold step at hh
  dsimp only at hh
  split at hh
  · cases hh
  · split at hh
    · cases hh
    · split at hh
      · cases hh
      · unfold dispatch at hh
        dsimp only at hh
        repeat' split at hh
        all_goals first
          | cases hh
          | (unfold execFetch at hh
             dsimp only at hh
             split at hh
             case _ => cases hh
             case _ heq =>
               cases hh
               apply markLast_ne_nil
               intro h0
               rw [h0] at heq
               cases heq)

/-- A crash of `execFetch` is the `IndexError`. -/
theorem execFetch_halt_outcome (s : LoopState) (cur : ToolExec)
    (res : List Finding × List String) (o : Outcome) (s2 : LoopState)
    (hh : execFetch s cur res = .halt o s2) : o = .indexError := by
  unfold execFetch at hh
  dsimp only at hh
  split at hh
  · cases hh; rfl
  · cases hh

/-- Dispatching never returns the model's fuel marker. -/
theorem dispatch_halt_not_fuelOut (ws : Workspace) (root : String) (s : LoopState)
    (r : AnalyzeErrorResult) (o : Outcome) (s2 : LoopState)
    (hh : dispatch ws root s r = .halt o s2) : o ≠ Outcome.fuelOut := by
  unfold dispatch at hh
  dsimp only at hh
  repeat' split at hh
  all_goals first
    | (cases hh; simp)
    | (rw [execFetch_halt_outcome _ _ _ _ _ hh]; simp)

/-- Stepping never returns the model's fuel marker. -/
theorem step_halt_not_fuelOut (ws : Workspace) (root : String) (s : LoopState)
    (o : Outcome) (s2 : LoopState) (hh : step ws root s = .halt o s2) :
    o ≠ Outcome.fuelOut := by
  unfold step at hh
  dsimp only at hh
  split at hh
  · cases hh; simp
  · split at hh
    · cases hh; simp
    · split at hh
      · cases hh; simp
      · exact dispatch_halt_not_fuelOut _ _ _ _ _ _ hh

/-- Unfolding equation of `loopRun` at a successor fuel value. -/
theorem loopRun_succ (ws : Workspace) (root : String) (n : Nat) (s : LoopState) :
    loopRun ws root (n + 1) s =
      match step ws root s with
      | .halt o s2 => (o, s2)
      | .next s2 => loopRun ws root n s2 := rfl

/-- Every fresh session resolves within its first two `analyze` invocations:
either the first invocation returns, or it recurses once and the second
invocation returns (its context now has findings, so `analyze_error` raises
`AttributeError` internally and the dispatch falls into the unknown-tool
return). -/
theorem analyzeRun_cases (ws : Workspace) (root : String) (input : String)
    (api : List ApiBehavior) :
    (∃ o s2, step ws root (initState api) = .halt o s2 ∧
       analyzeRun ws root input api = (o, s2)) ∨
    (∃ s2 o s3, step ws root (initState api) = .next s2 ∧ step ws root s2 = .halt o s3 ∧
       analyzeRun ws root input api = (o, s3)) := by
  cases h1 : step ws root (initState api) with
  | halt o s2 =>
    refine Or.inl ⟨o, s2, rfl, ?_⟩
    show loopRun ws root (49 + 1) (initState api) = (o, s2)
    rw [loopRun_succ, h1]
  | next s2 =>
    obtain ⟨o, s3, h2⟩ := step_halts_of_ne ws root s2 (step_next_findings_ne _ _ _ _ h1)
    refine Or.inr ⟨s2, o, s3, rfl, h2, ?_⟩
    show loopRun ws root (49 + 1) (initState api) = (o, s3)
    rw [loopRun_succ, h1]
    show loopRun ws root (48 + 1) s2 = (o, s3)
    rw [loopRun_succ, h2]

/-- Behavior of `analyze_error` on an empty context with a non-quota service exception:
the error message is surfaced in the tool-less result. -/
theorem analyzeError_error_nonquota (memo : Option String) (msg : String)
    (rest : List ApiBehavior) (h : strContains msg "rate_limit_error" = false) :
    analyzeError [] memo (Except.error msg :: rest) =
      some ({ tool := none, params := {}, analysis := "", error := some msg,
              current_analysis := memo }, 0, rest) := by
  unfold analyzeError
  rw [if_neg (by simp)]
  dsimp only
  rw [h]
  rfl

/-! ## Claim theorems -/

/-- C1: for every initial input and every sequence of service behaviors, a
fresh `analyze` session halts within the 50-step budget named by
`MAX_ITERATIONS` (the model never exhausts its fuel — in fact the session
resolves within two invocations), and whenever an invocation starts with more
than 50 findings the iteration guard returns immediately with the
`Too many iterations` stop notice. -/
theorem analyze_halts_within_iteration_cap :
    (∀ ws root input api, (analyzeRun ws root input api).1 ≠ Outcome.fuelOut) ∧
    (∀ ws root s, 50 < s.findings.length →
      step ws root s = .halt .iterationCap (pushD { s with iters := s.iters + 1 } capMsg)) := by
  constructor
  · intro ws root input api
    rcases analyzeRun_cases ws root input api with ⟨o, s2, h1, h2⟩ | ⟨s2, o, s3, h1, h2, h3⟩
    · rw [h2]
      exact step_halt_not_fuelOut _ _ _ _ _ h1
    · rw [h3]
      exact step_halt_not_fuelOut _ _ _ _ _ h2
  · intro ws root s h
    unfold step
    dsimp only
    rw [if_pos h]

/-- Witness for C1: a state carrying 51 findings trips the iteration guard
and the stop notice. -/
theorem analyze_halts_within_iteration_cap_witness :
    step [] "/w" s51 = .halt .iterationCap (pushD { s51 with iters := s51.iters + 1 } capMsg) :=
  analyze_halts_within_iteration_cap.2 [] "/w" s51 (by decide)

/-- C2 counterexample: one `fetch_files` execution on the context
`"pattern pattern"` appends two structurally identical findings (the append
log shows the repetition), yet the session never reaches the repeated-action
stop: the `tool_executed` marker set on the second finding breaks the equality
before the guard runs, and the session ends as an unrecognized action. -/
theorem repeated_findings_not_detected_cex :
    (analyzeRun [] "/w" "input" apiTwinPatterns).2.appendLog.length = 2 ∧
    (analyzeRun [] "/w" "input" apiTwinPatterns).2.appendLog.get? 0 =
      (analyzeRun [] "/w" "input" apiTwinPatterns).2.appendLog.get? 1 ∧
    (analyzeRun [] "/w" "input" apiTwinPatterns).1 = Outcome.unknownTool "None" ∧
    (analyzeRun [] "/w" "input" apiTwinPatterns).1 ≠ Outcome.repeatedFinding ∧
    (analyzeRun [] "/w" "input" apiTwinPatterns).1 ≠ Outcome.repeatedTool := by
  decide

/-- C2 amended: the repetition guards act on the marker-carrying findings —
an invocation whose last finding equals an earlier one returns with the
repeated-analysis notice before any service call; a `get_info` request whose
`(type, context)` pair equals a recorded `tool_executed` marker returns with
the repeated-tool notice without executing; and a fresh session executes at
most one tool action in total, so two identical finding-producing executions
never occur — but duplicates produced inside a single execution escape the
guard (see the counterexample). -/
theorem repeated_action_guards :
    (∀ ws root s, ¬ 50 < s.findings.length → repeatedLast s.findings = true →
      step ws root s = .halt .repeatedFinding (pushD { s with iters := s.iters + 1 } repMsg)) ∧
    (∀ ws root s r, r.tool = some "get_info" → r.analysis = "" →
      (s.findings.any fun f =>
        f.tool_executed == some ⟨r.params.ptype, r.params.pcontext.getD ""⟩) = true →
      dispatch ws root s r =
        .halt .repeatedTool (pushD s "Analysis stopped: Repeated tool execution detected")) ∧
    (∀ ws root input api, ((analyzeRun ws root input api).2.execLog).length ≤ 1) := by
  refine ⟨?_, ?_, ?_⟩
  · intro ws root s h1 h2
    unfold step
    dsimp only
    rw [if_neg h1, if_pos h2]
  · intro ws root s r h1 h2 h3
    obtain ⟨tool, params, analysis, err, cura⟩ := r
    dsimp only at h1 h2 h3
    subst h1
    subst h2
    simp only [dispatch, eq_self_iff_true, if_true]
    rw [if_pos h3]
  · intro ws root input api
    rcases analyzeRun_cases ws root input api with ⟨o, s2, h1, h2⟩ | ⟨s2, o, s3, h1, h2, h3⟩
    · rw [h2]
      have := (step_execLog ws root (initState api)).1 _ _ h1
      simp [this, initState]
    · rw [h3]
      have e2 := (step_execLog ws root (initState api)).2 _ h1
      have e3 := (step_execLog ws root s2).1 _ _ h2
      simp only [e3, e2]
      simp [initState]

/-- Witness for C2: the repeated-analysis guard fires on a context whose last
finding repeats an earlier one, and the repeated-tool guard fires on a request
matching a recorded marker. -/
theorem repeated_action_guards_witness :
    step [] "/w" sRep = .halt .repeatedFinding (pushD { sRep with iters := sRep.iters + 1 } repMsg) ∧
    dispatch [] "/w" sMarked rReq =
      .halt .repeatedTool (pushD sMarked "Analysis stopped: Repeated tool execution detected") :=
  ⟨repeated_action_guards.1 [] "/w" sRep (by decide) (by decide),
   repeated_action_guards.2.1 [] "/w" sMarked rReq (by decide) (by decide) (by decide)⟩

/-- C3 counterexample: after a plain-text response the session does not
continue — the scripted root cause waiting as the next response is never
consumed and the session returns with the unknown-tool notice. -/
theorem plain_text_ends_session_cex :
    (analyzeRun [] "/w" "in" apiTextThenRootCause).1 = Outcome.unknownTool "None" ∧
    (analyzeRun [] "/w" "in" apiTextThenRootCause).1 ≠ Outcome.rootCause "RC" ∧
    (analyzeRun [] "/w" "in" apiTextThenRootCause).2.api.length = 1 ∧
    (analyzeRun [] "/w" "in" apiTextThenRootCause).2.iters = 1 := by
  decide

/-- C3 amended: a plain-text response with no action, and a non-quota service
error, both map to `tool = None`; the Analyzer then reports
`Unknown tool: None` and returns, ending the session after that invocation
instead of continuing the loop. -/
theorem plain_text_and_gateway_errors_end_session :
    (∀ ws root input txt rest,
      (analyzeRun ws root input (Except.ok [ContentItem.text txt] :: rest)).1 =
        Outcome.unknownTool "None" ∧
      (analyzeRun ws root input (Except.ok [ContentItem.text txt] :: rest)).2.api = rest) ∧
    (∀ ws root input msg rest, strContains msg "rate_limit_error" = false →
      (analyzeRun ws root input (Except.error msg :: rest)).1 =
        Outcome.unknownTool "None" ∧
      (analyzeRun ws root input (Except.error msg :: rest)).2.api = rest) := by
  constructor
  · intro ws root input txt rest
    exact ⟨rfl, rfl⟩
  · intro ws root input msg rest h
    have hA := analyzeError_error_nonquota none msg rest h
    constructor
    · show (loopRun ws root (49 + 1) (initState (Except.error msg :: rest))).1 = _
      rw [loopRun_succ]
      unfold step
      dsimp only [initState]
      rw [hA]
      rfl
    · show (loopRun ws root (49 + 1) (initState (Except.error msg :: rest))).2.api = _
      rw [loopRun_succ]
      unfold step
      dsimp only [initState]
      rw [hA]
      rfl

/-- Witness for C3: a concrete non-quota error message ends the session with
the unknown-tool notice, leaving the rest of the script unconsumed. -/
theorem plain_text_and_gateway_errors_end_session_witness :
    (analyzeRun [] "/w" "in" (Except.error "boom" :: apiTextThenRootCause)).1 =
      Outcome.unknownTool "None" ∧
    (analyzeRun [] "/w" "in" (Except.error "boom" :: apiTextThenRootCause)).2.api =
      apiTextThenRootCause :=
  plain_text_and_gateway_errors_end_session.2 [] "/w" "in" "boom" apiTextThenRootCause (by decide)

/-- C4: the claim says `should_throttle()` returns a boolean without raising,
and returns `true` when `requests_remaining <= 0` and the current time is
before `reset_time`.  On exactly that input class the code instead raises
`NameError` — the quota branch logs via `datetime`, a name never bound in
`should_rate_limit`'s scope — so on the concrete failing input (no requests
remaining, reset at time 100, current time 50) the call errors instead of
returning `true`; when quota is healthy the spacing rule does give the
claimed boolean. -/
theorem should_throttle_raises_on_exhausted_quota :
    shouldRateLimit ⟨0, 0, 20000, some 100⟩ 50 =
        Except.error "NameError: name 'datetime' is not defined" ∧
    shouldRateLimit ⟨0, 50, 20000, none⟩ (1/10) = Except.ok true ∧
    shouldRateLimit ⟨0, 50, 20000, none⟩ 3 = Except.ok false := by
  refine ⟨?_, ?_, ?_⟩ <;> (unfold shouldRateLimit; norm_num [resetTruthy])

/-- C5: a quota-exhausted service exception (its message carries
`rate_limit_error`) is caught by `analyze_error`: the call returns the soft
tool-less result instead of propagating, records the fixed 5-second
cool-down, and hands the caller's current analysis memo back unchanged. -/
theorem quota_error_caught_cooldown_preserves_memo
    (memo : Option String) (msg : String) (rest : List ApiBehavior)
    (h : strContains msg "rate_limit_error" = true) :
    analyzeError [] memo (Except.error msg :: rest) =
      some ({ tool := none, params := {},
              analysis := "Rate limit reached. Please try again with a smaller context.",
              error := some "Rate limit error", current_analysis := memo }, 5, rest) := by
  unfold analyzeError
  rw [if_neg (by simp)]
  dsimp only
  rw [h]
  rfl

/-- Witness for C5: a concrete 429 message is caught, sleeps 5 seconds and
keeps the memo. -/
theorem quota_error_caught_cooldown_preserves_memo_witness :
    analyzeError [] (some "memo kept") [Except.error "Error code: 429 rate_limit_error"] =
      some ({ tool := none, params := {},
              analysis := "Rate limit reached. Please try again with a smaller context.",
              error := some "Rate limit error", current_analysis := some "memo kept" }, 5, []) :=
  quota_error_caught_cooldown_preserves_memo (some "memo kept")
    "Error code: 429 rate_limit_error" [] (by decide)

/-- C9 counterexample: in a session with one `fetch_logs` execution, the
finding recorded in the append log (as it was appended) differs from the same
finding at session end — `analyze` mutated it in place by attaching the
`tool_executed` marker after appending. -/
theorem finding_marker_mutation_cex :
    (analyzeRun [] "/w" "in" apiOneFetchLogs).2.findings ≠
      (analyzeRun [] "/w" "in" apiOneFetchLogs).2.appendLog ∧
    ((analyzeRun [] "/w" "in" apiOneFetchLogs).2.findings).map eraseMarker =
      (analyzeRun [] "/w" "in" apiOneFetchLogs).2.appendLog := by
  decide

/-- C9 amended: the findings sequence is append-only up to the
`tool_executed` marker: at every session end the findings agree, element by
element and in order, with the log of findings exactly as appended — except
possibly in the marker that `analyze` sets on the most recently appended
finding right after its tool ran. -/
theorem findings_append_only_up_to_marker (ws : Workspace) (root : String)
    (input : String) (api : List ApiBehavior) :
    ((analyzeRun ws root input api).2.findings).map eraseMarker =
      ((analyzeRun ws root input api).2.appendLog).map eraseMarker := by
  have h0 : FindingsMatchLog (initState api) := rfl
  rcases analyzeRun_cases ws root input api with ⟨o, s2, h1, h2⟩ | ⟨s2, o, s3, h1, h2, h3⟩
  · have := step_inv ws root (initState api) h0
    rw [h1] at this
    rw [h2]
    exact this
  · have i2 : FindingsMatchLog s2 := by
      have := step_inv ws root (initState api) h0
      rwa [h1] at this
    have := step_inv ws root s2 i2
    rw [h2] at this
    rw [h3]
    exact this

/-- Collected function definitions distribute over appended forests. -/
theorem fdNodesL_append : ∀ l1 l2 : List PyNode,
    fdNodesL (l1 ++ l2) = fdNodesL l1 ++ fdNodesL l2
  | [], _ => rfl
  | n :: t, l2 => by
    show fdNodes n ++ fdNodesL (t ++ l2) = (fdNodes n ++ fdNodesL t) ++ fdNodesL l2
    rw [fdNodesL_append t l2, List.append_assoc]

/-- Soundness of the breadth-first scan: a resolved name comes from an actual
`FunctionDef` of the scanned forest whose line range contains the line. -/
theorem findTargetAux_sound (L : Nat) :
    ∀ (fuel : Nat) (q : List PyNode) (f : String), findTargetAux L fuel q = some f →
      ∃ a b, (f, a, b) ∈ fdNodesL q ∧ a ≤ L ∧ L ≤ b := by
  intro fuel
  induction fuel with
  | zero => intro q f h; cases h
  | succ fuel ih =>
    intro q f h
    match q with
    | [] => cases h
    | n :: t =>
      match n with
      | .funcDef f0 a0 b0 body =>
        have h2 : (if a0 ≤ L ∧ L ≤ b0 then some f0
            else findTargetAux L fuel (t ++ body)) = some f := h
        by_cases hc : a0 ≤ L ∧ L ≤ b0
        · rw [if_pos hc] at h2
          cases h2
          exact ⟨a0, b0, by simp [fdNodesL, fdNodes], hc.1, hc.2⟩
        · rw [if_neg hc] at h2
          obtain ⟨a, b, hm, h1, hb⟩ := ih (t ++ body) f h2
          rw [fdNodesL_append] at hm
          refine ⟨a, b, ?_, h1, hb⟩
          simp only [fdNodesL, fdNodes, List.mem_append, List.mem_cons] at hm ⊢
          tauto
      | .mod b =>
        obtain ⟨a, bb, hm, h1, h2⟩ := ih (t ++ b) f h
        rw [fdNodesL_append] at hm
        refine ⟨a, bb, ?_, h1, h2⟩
        simp only [fdNodesL, fdNodes, List.mem_append] at hm ⊢
        tauto
      | .callName ci ln b =>
        obtain ⟨a, bb, hm, h1, h2⟩ := ih (t ++ b) f h
        rw [fdNodesL_append] at hm
        refine ⟨a, bb, ?_, h1, h2⟩
        simp only [fdNodesL, fdNodes, List.mem_append] at hm ⊢
        tauto
      | .callAttr at0 ln b =>
        obtain ⟨a, bb, hm, h1, h2⟩ := ih (t ++ b) f h
        rw [fdNodesL_append] at hm
        refine ⟨a, bb, ?_, h1, h2⟩
        simp only [fdNodesL, fdNodes, List.mem_append] at hm ⊢
        tauto
      | .other b =>
        obtain ⟨a, bb, hm, h1, h2⟩ := ih (t ++ b) f h
        rw [fdNodesL_append] at hm
        refine ⟨a, bb, ?_, h1, h2⟩
        simp only [fdNodesL, fdNodes, List.mem_append] at hm ⊢
        tauto

/-- Completeness of the miss case: when no `FunctionDef` range contains the
line, the breadth-first scan resolves nothing. -/
theorem findTargetAux_none (L : Nat) :
    ∀ (fuel : Nat) (q : List PyNode),
      (∀ x ∈ fdNodesL q, ¬(x.2.1 ≤ L ∧ L ≤ x.2.2)) → findTargetAux L fuel q = none := by
  intro fuel
  induction fuel with
  | zero => intro q _; rfl
  | succ fuel ih =>
    intro q hq
    match q with
    | [] => rfl
    | n :: t =>
      match n with
      | .funcDef f0 a0 b0 body =>
        show (if a0 ≤ L ∧ L ≤ b0 then some f0
            else findTargetAux L fuel (t ++ body)) = none
        rw [if_neg (hq (f0, a0, b0) (by simp [fdNodesL, fdNodes]))]
        refine ih (t ++ body) ?_
        intro x hx
        refine hq x ?_
        rw [fdNodesL_append] at hx
        simp only [fdNodesL, fdNodes, List.mem_append, List.mem_cons] at hx ⊢
        tauto
      | .mod b =>
        refine ih (t ++ b) ?_
        intro x hx
        refine hq x ?_
        rw [fdNodesL_append] at hx
        simp only [fdNodesL, fdNodes, List.mem_append] at hx ⊢
        tauto
      | .callName ci ln b =>
        refine ih (t ++ b) ?_
        intro x hx
        refine hq x ?_
        rw [fdNodesL_append] at hx
        simp only [fdNodesL, fdNodes, List.mem_append] at hx ⊢
        tauto
      | .callAttr at0 ln b =>
        refine ih (t ++ b) ?_
        intro x hx
        refine hq x ?_
        rw [fdNodesL_append] at hx
        simp only [fdNodesL, fdNodes, List.mem_append] at hx ⊢
        tauto
      | .other b =>
        refine ih (t ++ b) ?_
        intro x hx
        refine hq x ?_
        rw [fdNodesL_append] at hx
        simp only [fdNodesL, fdNodes, List.mem_append] at hx ⊢
        tauto

/-- C6 counterexample: for a line inside a nested function, the code resolves
the enclosing function to the first breadth-first hit — the outermost
definition — while the innermost definition containing the line is the nested
one. -/
theorem enclosing_function_not_innermost_cex :
    findTarget nestedTree 4 = some "outer" ∧
    innermostEnclosing 4 nestedTree = some "inner" ∧
    findTarget nestedTree 4 ≠ innermostEnclosing 4 nestedTree := by
  decide

/-- C6 amended: the resolved seed of `get_callers` is the first `FunctionDef`
in breadth-first order whose line range contains the line — a genuinely
enclosing definition, but the outermost one when definitions nest; when no
definition contains the line the resolution yields nothing, and a missing
file, an unparsable file, or a failed resolution all make `get_callers`
return the empty list instead of raising. -/
theorem enclosing_function_resolution_properties :
    (∀ t L f, findTarget t L = some f → ∃ a b, (f, a, b) ∈ fdNodes t ∧ a ≤ L ∧ L ≤ b) ∧
    (∀ t L, (∀ x ∈ fdNodes t, ¬(x.2.1 ≤ L ∧ L ≤ x.2.2)) → findTarget t L = none) ∧
    (∀ ws root loc, resolveUnderRoot ws root loc.file_path = none →
      getCallers ws root loc = []) ∧
    (∀ ws root loc e msg, resolveUnderRoot ws root loc.file_path = some e →
      e.parsed = Except.error msg → getCallers ws root loc = []) ∧
    (∀ ws root loc e t, resolveUnderRoot ws root loc.file_path = some e →
      e.parsed = Except.ok t → findTarget t loc.line_number = none →
      getCallers ws root loc = []) := by
  refine ⟨?_, ?_, ?_, ?_, ?_⟩
  · intro t L f h
    obtain ⟨a, b, hm, h1, h2⟩ := findTargetAux_sound L (PyNode.size t) [t] f h
    refine ⟨a, b, ?_, h1, h2⟩
    simpa [fdNodesL] using hm
  · intro t L h
    refine findTargetAux_none L (PyNode.size t) [t] ?_
    intro x hx
    refine h x ?_
    simpa [fdNodesL] using hx
  · intro ws root loc h
    unfold getCallers
    rw [h]
  · intro ws root loc e msg h1 h2
    unfold getCallers
    rw [h1]
    dsimp only
    rw [h2]
  · intro ws root loc e t h1 h2 h3
    unfold getCallers
    rw [h1]
    dsimp only
    rw [h2]
    dsimp only
    rw [h3]

/-- Witness for C6: the breadth-first resolution on the nested module indeed
lands on an enclosing definition, and a module with no definitions resolves
nothing. -/
theorem enclosing_function_resolution_properties_witness :
    (∃ a b, ("outer", a, b) ∈ fdNodes nestedTree ∧ a ≤ 4 ∧ 4 ≤ b) ∧
    findTarget (PyNode.mod [PyNode.callName "f" 1 []]) 7 = none :=
  ⟨enclosing_function_resolution_properties.1 nestedTree 4 "outer" (by decide),
   enclosing_function_resolution_properties.2.1 (PyNode.mod [PyNode.callName "f" 1 []]) 7
     (by decide)⟩

/-- C7 counterexample: `get_stack_trace(loc, max_depth=0)` returns the empty
trace, not a single frame carrying `loc`: the depth guard fires on the very
first call and the longest candidate is the empty path. -/
theorem stack_trace_depth_zero_empty_cex :
    getStackTrace [] "/w" ⟨"a.py", 1, none⟩ 0 = [] ∧
    (getStackTrace [] "/w" ⟨"a.py", 1, none⟩ 0).length ≠ 1 := by
  decide

/-- Building a stack trace with no fuel yields the single empty path. -/
theorem buildStackTrace_zero (ws : Workspace) (root : String) (loc : CodeLocation)
    (v : List String) : buildStackTrace ws root 0 loc v = [[]] := rfl

/-- Flattening singleton-empty blocks gives replicated empty paths. -/
theorem flatten_map_nil_block (l : List CodeLocation) :
    (l.map (fun _ => [([] : List StackTraceEntry)])).flatten =
      List.replicate l.length [] := by
  induction l with
  | nil => rfl
  | cons a t ih => simp [ih, List.replicate]

/-- Python `max(..., key=len)` over identical candidates. -/
theorem maxByLen_fold_replicate (x : List StackTraceEntry) :
    ∀ n, (List.replicate n x).foldl
      (fun best y => if best.length < y.length then y else best) x = x
  | 0 => rfl
  | n + 1 => by
    simp only [List.replicate, List.foldl_cons, if_neg (lt_irrefl _)]
    exact maxByLen_fold_replicate x n

/-- C7 amended: with `max_depth = 0` the trace is empty; the single-frame
trace carrying exactly the requested location (with its two-line code
context) is what `max_depth = 1` returns. -/
theorem stack_trace_depth_semantics :
    (∀ ws root loc, getStackTrace ws root loc 0 = []) ∧
    (∀ ws root loc, getStackTrace ws root loc 1 =
      [⟨loc, some (getCodeBlock ws root loc 2)⟩]) := by
  constructor
  · intro ws root loc
    rfl
  · intro ws root loc
    unfold getStackTrace buildStackTrace
    dsimp only
    cases hc : getCallers ws root loc with
    | nil =>
      rw [if_pos rfl]
      rfl
    | cons c cs =>
      rw [if_neg (by simp)]
      simp only [List.not_mem_nil, if_false, List.nil_append, buildStackTrace_zero,
        flatten_map_nil_block]
      rw [if_neg (by simp [List.replicate])]
      simp only [List.map_replicate, List.nil_append, List.length_cons]
      unfold maxByLen
      simp only [List.replicate]
      exact maxByLen_fold_replicate _ _

mutual

/-- Every site the visitor collects lies on the line of a call whose callee
is the bare target name (attribute calls never contribute). -/
theorem collect_bare (target : String) (cur : Option String) (n : PyNode) :
    ∀ pr ∈ collectCalls target cur n, pr.2 ∈ bareCallLines target n := by
  match n with
  | .mod b =>
    intro pr hpr
    exact collect_bareL target cur b pr hpr
  | .funcDef f a bb body =>
    intro pr hpr
    exact collect_bareL target (some f) body pr hpr
  | .callName ci ln args =>
    intro pr hpr
    simp only [collectCalls, List.mem_append] at hpr
    simp only [bareCallLines, List.mem_append]
    rcases hpr with hpr | hpr
    · left
      by_cases hci : ci = target
      · rw [if_pos hci] at hpr ⊢
        match cur with
        | some fn =>
          simp only [List.mem_singleton] at hpr
          simp [hpr]
        | none => cases hpr
      · rw [if_neg hci] at hpr
        cases hpr
    · right
      exact collect_bareL target cur args pr hpr
  | .callAttr a ln ch =>
    intro pr hpr
    exact collect_bareL target cur ch pr hpr
  | .other ch =>
    intro pr hpr
    exact collect_bareL target cur ch pr hpr

/-- Bare-call soundness over a forest. -/
theorem collect_bareL (target : String) (cur : Option String) (l : List PyNode) :
    ∀ pr ∈ collectCallsL target cur l, pr.2 ∈ bareCallLinesL target l := by
  match l with
  | [] => intro pr hpr; cases hpr
  | n :: t =>
    intro pr hpr
    simp only [collectCallsL, List.mem_append] at hpr
    simp only [bareCallLinesL, List.mem_append]
    rcases hpr with hpr | hpr
    · exact Or.inl (collect_bare target cur n pr hpr)
    · exact Or.inr (collect_bareL target cur t pr hpr)

end

mutual

/-- Every site the visitor collects is attributed either to a `FunctionDef`
of the visited tree or to the function already current when the visit
started; with no current function, only sites inside definitions remain. -/
theorem collect_in_fd (target : String) (cur : Option String) (n : PyNode) :
    ∀ pr ∈ collectCalls target cur n,
      pr.1 ∈ (fdNodes n).map (·.1) ∨ cur = some pr.1 := by
  match n with
  | .mod b =>
    intro pr hpr
    rcases collect_in_fdL target cur b pr hpr with h | h
    · exact Or.inl (by simpa [fdNodes] using h)
    · exact Or.inr h
  | .funcDef f a bb body =>
    intro pr hpr
    rcases collect_in_fdL target (some f) body pr hpr with h | h
    · refine Or.inl ?_
      simp only [fdNodes, List.map_cons, List.mem_cons]
      exact Or.inr h
    · refine Or.inl ?_
      simp only [fdNodes, List.map_cons, List.mem_cons]
      exact Or.inl (Option.some_injective _ h).symm
  | .callName ci ln args =>
    intro pr hpr
    simp only [collectCalls, List.mem_append] at hpr
    rcases hpr with hpr | hpr
    · by_cases hci : ci = target
      · rw [if_pos hci] at hpr
        match cur with
        | some fn =>
          simp only [List.mem_singleton] at hpr
          exact Or.inr (by simp [hpr])
        | none => cases hpr
      · rw [if_neg hci] at hpr
        cases hpr
    · rcases collect_in_fdL target cur args pr hpr with h | h
      · exact Or.inl (by simpa [fdNodes] using h)
      · exact Or.inr h
  | .callAttr a ln ch =>
    intro pr hpr
    rcases collect_in_fdL target cur ch pr hpr with h | h
    · exact Or.inl (by simpa [fdNodes] using h)
    · exact Or.inr h
  | .other ch =>
    intro pr hpr
    rcases collect_in_fdL target cur ch pr hpr with h | h
    · exact Or.inl (by simpa [fdNodes] using h)
    · exact Or.inr h

/-- Function attribution over a forest. -/
theorem collect_in_fdL (target : String) (cur : Option String) (l : List PyNode) :
    ∀ pr ∈ collectCallsL target cur l,
      pr.1 ∈ (fdNodesL l).map (·.1) ∨ cur = some pr.1 := by
  match l with
  | [] => intro pr hpr; cases hpr
  | n :: t =>
    intro pr hpr
    simp only [collectCallsL, List.mem_append] at hpr
    rcases hpr with hpr | hpr
    · rcases collect_in_fd target cur n pr hpr with h | h
      · refine Or.inl ?_
        simp only [fdNodesL, List.map_append, List.mem_append]
        exact Or.inl h
      · exact Or.inr h
    · rcases collect_in_fdL target cur t pr hpr with h | h
      · refine Or.inl ?_
        simp only [fdNodesL, List.map_append, List.mem_append]
        exact Or.inr h
      · exact Or.inr h

end

/-- C10: every caller location `get_callers` returns satisfies all the
implicit filters — it names a file of the workspace whose base name ends in
`.py`, identified by its workspace-relative path; its line carries a call
whose callee is the bare target name (never an attribute call); and its
recorded enclosing function is an actual function definition of that file
(module-level calls carry no enclosing function and are skipped). -/
theorem callers_bare_name_in_function_py_only
    (ws : Workspace) (root : String) (loc : CodeLocation) (c : CodeLocation)
    (hc : c ∈ getCallers ws root loc) :
    ∃ seed tree target, resolveUnderRoot ws root loc.file_path = some seed ∧
      seed.parsed = Except.ok tree ∧ findTarget tree loc.line_number = some target ∧
      ∃ e, e ∈ ws ∧ c.file_path = e.relPath ∧
        pyEndsWith (pyBasename e.relPath) ".py" = true ∧
        ∃ t, e.parsed = Except.ok t ∧
          c.line_number ∈ bareCallLines target t ∧
          ∃ fn, c.function_name = some fn ∧ fn ∈ (fdNodes t).map (·.1) := by
  unfold getCallers at hc
  match hseed : resolveUnderRoot ws root loc.file_path with
  | none => rw [hseed] at hc; cases hc
  | some seed =>
    rw [hseed] at hc
    dsimp only at hc
    match hparsed : seed.parsed with
    | Except.error msg => rw [hparsed] at hc; cases hc
    | Except.ok tree =>
      rw [hparsed] at hc
      dsimp only at hc
      match htarget : findTarget tree loc.line_number with
      | none => rw [htarget] at hc; cases hc
      | some target =>
        rw [htarget] at hc
        dsimp only at hc
        rw [List.mem_flatMap] at hc
        obtain ⟨e, he, hmem⟩ := hc
        refine ⟨seed, tree, target, rfl, hparsed, htarget, e, he, ?_⟩
        by_cases hpy : pyEndsWith (pyBasename e.relPath) ".py" = true
        · rw [if_pos hpy] at hmem
          match hp : e.parsed with
          | Except.error msg => rw [hp] at hmem; cases hmem
          | Except.ok t =>
            rw [hp] at hmem
            dsimp only at hmem
            rw [List.mem_map] at hmem
            obtain ⟨pr, hpr, hval⟩ := hmem
            have hfile : c.file_path = e.relPath := by rw [← hval]
            have hline : c.line_number = pr.2 := by rw [← hval]
            have hfn : c.function_name = some pr.1 := by rw [← hval]
            refine ⟨hfile, hpy, t, rfl, ?_, pr.1, hfn, ?_⟩
            · rw [hline]
              exact collect_bare target none t pr hpr
            · rcases collect_in_fd target none t pr hpr with h | h
              · exact h
              · cases h
        · rw [if_neg hpy] at hmem
          cases hmem

/-- Witness for C10: on the five-file workspace the sole returned caller is
the bare-name call inside `g` of `caller.py`. -/
theorem callers_bare_name_in_function_py_only_witness :
    ∃ seed tree target,
      resolveUnderRoot wsCallers "/w" (CodeLocation.file_path ⟨"main.py", 2, none⟩) =
        some seed ∧
      seed.parsed = Except.ok tree ∧
      findTarget tree (CodeLocation.line_number ⟨"main.py", 2, none⟩) = some target ∧
      ∃ e, e ∈ wsCallers ∧
        CodeLocation.file_path ⟨"caller.py", 3, some "g"⟩ = e.relPath ∧
        pyEndsWith (pyBasename e.relPath) ".py" = true ∧
        ∃ t, e.parsed = Except.ok t ∧
          CodeLocation.line_number ⟨"caller.py", 3, some "g"⟩ ∈ bareCallLines target t ∧
          ∃ fn, CodeLocation.function_name ⟨"caller.py", 3, some "g"⟩ = some fn ∧
            fn ∈ (fdNodes t).map (·.1) :=
  callers_bare_name_in_function_py_only wsCallers "/w" ⟨"main.py", 2, none⟩
    ⟨"caller.py", 3, some "g"⟩ (by decide)

/-- C8 counterexample: `fetch_code("app.py", 42)` on a 10-line file does not
raise, but it returns an empty code section rather than the whole file: each
window bound is clipped independently, so the start bound (22) ends up past
the end bound (10) and the slice is empty. -/
theorem fetch_code_beyond_eof_empty_window_cex :
    sendCode [("app.py", tenLineFile)] "app.py" 42 20 =
      SendCodeResult.ok "app.py" 22 10 42 "" ∧
    (pyReadlines tenLineFile).length = 10 ∧
    sendCode [("app.py", tenLineFile)] "app.py" 42 20 ≠
      SendCodeResult.ok "app.py" 1 10 42
        (pyConcat ((List.range 10).map
          (fun i => toString (i + 1) ++ ": " ++ (pyReadlines tenLineFile).getD i ""))) := by
  refine ⟨by decide, by decide, by decide⟩

/-- C8 amended: fetching code at a line number beyond the reach of the window
never raises — `send_code` returns its success dictionary — but the window is
empty whenever the line exceeds the line count by more than the context
width, because the bounds are clipped to the file independently rather than
clamped to produce the trailing lines. -/
theorem fetch_code_beyond_eof_no_raise (files : List (String × String)) (fp : String)
    (pr : String × String) (t : Nat)
    (hf : files.find? (fun p => p.1 == fp) = some pr)
    (ht : (pyReadlines pr.2).length + 20 < t) :
    sendCode files fp t 20 =
      SendCodeResult.ok fp (t - 20) (pyReadlines pr.2).length t "" := by
  unfold sendCode
  rw [hf]
  dsimp only
  have hs : max 1 (t - 20) = t - 20 := by omega
  have he : min (pyReadlines pr.2).length (t + 20) = (pyReadlines pr.2).length := by
    omega
  rw [hs, he]
  have hn : (pyReadlines pr.2).length - (t - 20 - 1) = 0 := by omega
  rw [hn]
  rfl

/-- Witness for C8: the concrete ten-line scenario, through the general
theorem. -/
theorem fetch_code_beyond_eof_no_raise_witness :
    sendCode [("app.py", tenLineFile)] "app.py" 42 20 =
      SendCodeResult.ok "app.py" (42 - 20) (pyReadlines tenLineFile).length 42 "" :=
  fetch_code_beyond_eof_no_raise [("app.py", tenLineFile)] "app.py"
    ("app.py", tenLineFile) 42 (by decide) (by decide)

end Traceback
